import Mathlib

set_option maxHeartbeats 1000000

/-!
Shallow embedding of `src/workspaces_tool.py` (Amazon WorkSpaces bulk helper).

Python dictionaries are modelled as association lists with insertion-order
preserving overwrite (`dictInsert`), Python truthiness of optional strings via
explicit emptiness checks, and each external API call via an oracle function
supplied as a parameter.  Machine-level details (logging, table printing) are
not modelled; they do not affect any claim.
-/

/-- Python `str.lower()` (ASCII-level model), executable over the char data. -/
def pyLower (s : String) : String := ⟨s.data.map Char.toLower⟩

/-- Python `str.strip()`: drop leading and trailing whitespace. -/
def pyStrip (s : String) : String :=
  ⟨((s.data.dropWhile Char.isWhitespace).reverse.dropWhile Char.isWhitespace).reverse⟩

/-- The accumulator loop of `pySplitComma`. -/
def splitCommaChars : List Char → List Char → List String
  | acc, [] => [⟨acc.reverse⟩]
  | acc, c :: rest =>
    if c = ',' then ⟨acc.reverse⟩ :: splitCommaChars [] rest
    else splitCommaChars (c :: acc) rest

/-- Python `str.split(",")`: split on every comma (no merging of empties). -/
def pySplitComma (s : String) : List String := splitCommaChars [] s.data

/-- Python `dict.get(k)`: value at key `k`, `None` when absent. -/
def dictGet {α : Type} : List (String × α) → String → Option α
  | [], _ => none
  | (k2, v) :: rest, k => if k2 = k then some v else dictGet rest k

/-- Python `d[k] = v`: overwrite in place when the key exists, append otherwise. -/
def dictInsert {α : Type} : List (String × α) → String → α → List (String × α)
  | [], k, v => [(k, v)]
  | (k2, v2) :: rest, k, v =>
    if k2 = k then (k2, v) :: rest else (k2, v2) :: dictInsert rest k v

/-- Python `d.pop(k)`: drop the entry with key `k`. -/
def dictRemove {α : Type} : List (String × α) → String → List (String × α)
  | [], _ => []
  | (k2, v2) :: rest, k => if k2 = k then rest else (k2, v2) :: dictRemove rest k

/-- Python truthiness of an optional string (`None` and `""` are falsy). -/
def truthyOpt : Option String → Option String
  | none => none
  | some s => if s = "" then none else some s

/-- Python `a or b` on strings (`""` is falsy). -/
def pyOrStr (a b : String) : String := if a = "" then b else a

/-- A WorkSpace record as returned by `DescribeWorkspaces`; absent keys are `none`. -/
structure Workspace where
  workspaceId : Option String := none
  computerName : Option String := none
  userName : Option String := none
  state : Option String := none
deriving DecidableEq

/-- Outcome of one `DescribeTags` call: a tag list, a `ClientError` with an
error code, or a `BotoCoreError`. -/
inductive TagCallResult where
  | ok (tagList : List (String × Option String))
  | clientError (code : String)
  | botoCoreError
deriving DecidableEq

/-- One entry of the `FailedRequests` list of a batched mutation response. -/
structure FailedRequest where
  workspaceId : Option String := none
  errorCode : Option String := none
  error : Option String := none
  errorMessage : Option String := none
  message : Option String := none
deriving DecidableEq

/-- Outcome of one batched `StartWorkspaces`/`StopWorkspaces` call: a
transport/client-level exception, or a response with its per-item failures. -/
inductive BatchResult where
  | transportError
  | response (failedRequests : List FailedRequest)
deriving DecidableEq

/-! ### Target parsing (`read_names_from_file`, `parse_targets`) -/

/-- The case-insensitive order-preserving de-duplication loop shared by
`read_names_from_file` and `parse_targets` (`seen` accumulates lowercased names). -/
def dedupCIAux : List String → List String → List String
  | _, [] => []
  | seen, n :: rest =>
    if pyLower n ∈ seen then dedupCIAux seen rest
    else n :: dedupCIAux (pyLower n :: seen) rest

/-- De-duplicate preserving order, case-insensitively (first occurrence wins). -/
def dedupCI (l : List String) : List String := dedupCIAux [] l

/-- Split one line on commas, strip parts, and drop empty parts. -/
def splitCommaParts (s : String) : List String :=
  ((pySplitComma s).map pyStrip).filter (fun p => decide (p ≠ ""))

/-- Model of `read_names_from_file`, with the file contents given as its list of lines. -/
def read_names_from_file (lines : List String) : List String :=
  dedupCI (lines.foldl
    (fun out line =>
      let l := pyStrip line
      if l = "" then out else out ++ splitCommaParts l)
    [])

/-- Targets contributed by the `--names` argument. -/
def inlineTargets : Option String → List String
  | none => []
  | some s => if s = "" then [] else splitCommaParts s

/-- Targets contributed by the `--file` argument (its lines). -/
def fileTargets : Option (List String) → List String
  | none => []
  | some lines => read_names_from_file lines

/-- Model of `parse_targets`: combine `--names` and `--file`, de-duplicated case-insensitively. -/
def parse_targets (names_arg : Option String) (file_lines : Option (List String)) :
    List String :=
  dedupCI (inlineTargets names_arg ++ fileTargets file_lines)

/-! ### Index construction (`build_index_without_tags`) -/

/-- The keys set `{wsid} ∪ {ComputerName?} ∪ {UserName?}` built for one record
(Python truthiness guards on the optional fields). -/
def recordKeys (ws : Workspace) (wsid : String) : List String :=
  [wsid]
    ++ (match ws.computerName with
        | some c => if c = "" then [] else [c]
        | none => [])
    ++ (match ws.userName with
        | some u => if u = "" then [] else [u]
        | none => [])

/-- The lowercased identifying keys under which a record is indexed
(empty when the record has no truthy `WorkspaceId`). -/
def lowerKeys (ws : Workspace) : List String :=
  match ws.workspaceId with
  | none => []
  | some wsid => if wsid = "" then [] else (recordKeys ws wsid).map pyLower

/-- One iteration of the `build_index_without_tags` loop. -/
def buildIndexStep (acc : List (String × Workspace) × List (String × String))
    (ws : Workspace) : List (String × Workspace) × List (String × String) :=
  match ws.workspaceId with
  | none => acc
  | some wsid =>
    if wsid = "" then acc
    else
      (dictInsert acc.1 wsid ws,
       (recordKeys ws wsid).foldl (fun m k => dictInsert m (pyLower k) wsid) acc.2)

/-- Model of `build_index_without_tags`: `(by_id, names_index)` from the fetched inventory. -/
def build_index_without_tags (l : List Workspace) :
    List (String × Workspace) × List (String × String) :=
  l.foldl buildIndexStep ([], [])

/-! ### `safe_describe_tags` -/

/-- The throttling error codes retried by `safe_describe_tags`. -/
def rateLimitCodes : List String :=
  ["Throttling", "ThrottlingException", "TooManyRequestsException"]

/-- Whether a `DescribeTags` outcome is a rate-limit `ClientError`. -/
def isRateLimited : TagCallResult → Bool
  | .clientError code => decide (code ∈ rateLimitCodes)
  | _ => false

/-- Build the tag dictionary from a `TagList` response
(Python `t.get("Value", "")` defaults a missing value to the empty string). -/
def tagDictOf (tl : List (String × Option String)) : List (String × String) :=
  tl.foldl (fun m t => dictInsert m t.1 (t.2.getD "")) []

/-- The retry loop of `safe_describe_tags` over the outcomes of its (up to 5)
attempts.  Returns `(tag dict, sleeps performed, attempts made)`. -/
def sdtLoop : List TagCallResult → ℚ → List (String × String) × List ℚ × Nat
  | [], _ => ([], [], 0)
  | r :: rest, backoff =>
    match r with
    | .ok tagList => (tagDictOf tagList, [], 1)
    | .clientError code =>
      if code ∈ rateLimitCodes then
        let res := sdtLoop rest (min (backoff * 2) 4)
        (res.1, backoff :: res.2.1, res.2.2 + 1)
      else ([], [], 1)
    | .botoCoreError => ([], [], 1)

/-- Model of `safe_describe_tags`, with attempt outcomes supplied by the oracle `env`. -/
def safe_describe_tags (env : Nat → TagCallResult) :
    List (String × String) × List ℚ × Nat :=
  sdtLoop ((List.range 5).map env) (1 / 2 : ℚ)

/-- The backoff schedule starting from `b`, doubling with cap 4. -/
def backoffSched : Nat → ℚ → List ℚ
  | 0, _ => []
  | n + 1, b => b :: backoffSched n (min (b * 2) 4)

/-! ### `chunked` -/

/-- The accumulator loop of `chunked`. -/
def chunkedAux {α : Type} (size : Nat) : List α → List α → List (List α)
  | buf, [] => if buf.isEmpty then [] else [buf]
  | buf, x :: rest =>
    if (buf ++ [x]).length = size then (buf ++ [x]) :: chunkedAux size [] rest
    else chunkedAux size (buf ++ [x]) rest

/-- Model of `chunked`: yield items in fixed-size chunks (last chunk may be shorter). -/
def chunked {α : Type} (l : List α) (size : Nat) : List (List α) :=
  chunkedAux size [] l

/-! ### Resolution (`resolve_targets`) -/

/-- The fast first pass of `resolve_targets`: exact, case-insensitive lookup of
each target in `names_index` (Python `if wsid:` treats `""` as no match). -/
def phase1 (idx : List (String × String)) : List String → List (String × String) × List String
  | [] => ([], [])
  | tgt :: rest =>
    let r := phase1 idx rest
    match dictGet idx (pyLower tgt) with
    | some wsid => if wsid = "" then (r.1, tgt :: r.2) else ((tgt, wsid) :: r.1, r.2)
    | none => (r.1, tgt :: r.2)

/-- State of the bounded Name-tag sweep: the `unresolved_lc` dict
(lowercased target ↦ original spelling), the `matched_now` dict
(original spelling ↦ workspace id), the `tag_lookups` counter, and — as ghost
instrumentation — the list of workspace ids actually passed to `DescribeTags`. -/
structure Phase2State where
  unresolved_lc : List (String × String)
  matched_now : List (String × String)
  tag_lookups : Nat
  calls : List String
deriving DecidableEq

/-- Python `{u.lower(): u for u in unresolved}`. -/
def buildUnresolvedLc (unresolved : List String) : List (String × String) :=
  unresolved.foldl (fun m u => dictInsert m (pyLower u) u) []

/-- The `Name`-tag of a record: `(tags.get("Name") or tags.get("name") or "")`,
lowercased and trimmed. -/
def tagNameOf (tags : List (String × String)) : String :=
  pyStrip (pyLower (match truthyOpt (dictGet tags "Name") with
    | some s => s
    | none =>
      match truthyOpt (dictGet tags "name") with
      | some s => s
      | none => ""))

/-- The bounded Name-tag sweep of `resolve_targets`: scan the inventory in fetch
order, stopping when no target remains unresolved or the lookup counter has
reached the cap; records without a truthy `WorkspaceId` are skipped without a
lookup; every performed lookup increments the counter regardless of outcome. -/
def phase2 (tagEnv : String → Nat → TagCallResult) (cap : Nat) :
    List Workspace → Phase2State → Phase2State
  | [], st => st
  | ws :: rest, st =>
    if st.unresolved_lc = [] then st
    else if cap ≤ st.tag_lookups then st
    else
      match ws.workspaceId with
      | none => phase2 tagEnv cap rest st
      | some wsid =>
        if wsid = "" then phase2 tagEnv cap rest st
        else
          let tags := (safe_describe_tags (tagEnv wsid)).1
          let st1 : Phase2State :=
            ⟨st.unresolved_lc, st.matched_now, st.tag_lookups + 1, st.calls ++ [wsid]⟩
          let tag_name := tagNameOf tags
          if tag_name = "" then phase2 tagEnv cap rest st1
          else
            match dictGet st1.unresolved_lc tag_name with
            | some original =>
              phase2 tagEnv cap rest
                ⟨dictRemove st1.unresolved_lc tag_name,
                 dictInsert st1.matched_now original wsid,
                 st1.tag_lookups, st1.calls⟩
            | none => phase2 tagEnv cap rest st1

/-- Model of `resolve_targets`: first pass on the index, then the optional bounded
Name-tag sweep; returns `(resolved pairs, unresolved targets)`.  The fetched
inventory and the per-record `DescribeTags` outcomes are supplied as oracles. -/
def resolve_targets (all_ws : List Workspace) (tagEnv : String → Nat → TagCallResult)
    (targets : List String) (include_tags : Bool) (max_tag_lookups : Nat) :
    List (String × String) × List String :=
  let names_index := (build_index_without_tags all_ws).2
  let p1 := phase1 names_index targets
  if include_tags = true ∧ p1.2 ≠ [] then
    let st := phase2 tagEnv max_tag_lookups all_ws ⟨buildUnresolvedLc p1.2, [], 0, []⟩
    (p1.1 ++ st.matched_now,
     p1.2.filter (fun u => (dictGet st.matched_now u).isNone))
  else (p1.1, p1.2)

/-! ### Batch actuation (`start_or_stop`) -/

/-- The truthy `WorkspaceId`s of a `FailedRequests` list
(`{f.get("WorkspaceId") for f in failed_list if f.get("WorkspaceId")}`). -/
def truthyFailedIds (fl : List FailedRequest) : List String :=
  (fl.filterMap FailedRequest.workspaceId).filter (fun s => decide (s ≠ ""))

/-- The failure-table rows built from one response's `FailedRequests`. -/
def failureDetailOf (batch : List (String × String)) (fl : List FailedRequest) :
    List (String × String × String × String) :=
  let name_by_id := batch.foldl (fun m p => dictInsert m p.2 p.1) []
  fl.map (fun item =>
    let wsid := item.workspaceId.getD ""
    let code := pyOrStr (item.errorCode.getD "") (item.error.getD "")
    let msg := pyOrStr (item.errorMessage.getD "") (item.message.getD "")
    ((dictGet name_by_id wsid).getD wsid, wsid, code, msg))

/-- The batch loop of `start_or_stop` over the chunks, threading the call index
into the oracle.  Returns `(succeeded ids, failed pairs, failure rows, requests
issued)`; the last component is ghost instrumentation recording the id list of
every mutation call. -/
def runBatches (env : Nat → BatchResult) :
    Nat → List (List (String × String)) →
    List String × List (String × String) ×
      List (String × String × String × String) × List (List String)
  | _, [] => ([], [], [], [])
  | i, batch :: rest =>
    let req := batch.map Prod.snd
    match env i with
    | .transportError =>
      let r := runBatches env (i + 1) rest
      (r.1, batch ++ r.2.1, r.2.2.1, req :: r.2.2.2)
    | .response fl =>
      let failedIds := truthyFailedIds fl
      let succ := (batch.filter (fun p => decide (p.2 ∉ failedIds))).map Prod.snd
      let fail := batch.filter (fun p => decide (p.2 ∈ failedIds))
      let r := runBatches env (i + 1) rest
      (succ ++ r.1, fail ++ r.2.1, failureDetailOf batch fl ++ r.2.2.1, req :: r.2.2.2)

/-- Model of `start_or_stop`: mutate in 25-size batches; a whole-batch exception marks
the batch failed, a response marks the ids of its `FailedRequests` failed. -/
def start_or_stop (startEnv stopEnv : Nat → BatchResult)
    (pairs : List (String × String)) (action : String) :
    List String × List (String × String) ×
      List (String × String × String × String) × List (List String) :=
  if pairs = [] then ([], [], [], [])
  else runBatches (if action = "start" then startEnv else stopEnv) 0 (chunked pairs 25)

/-! ### State filtering (`get_workspace_states`, `filter_by_valid_state`) -/

/-- The batch loop of `get_workspace_states`: a failed `DescribeWorkspaces`
call is swallowed (no states recorded for that batch). -/
def gwsLoop (env : Nat → Option (List Workspace)) :
    Nat → List (List String) → List (String × String) → List (String × String)
  | _, [], states => states
  | i, _ :: rest, states =>
    match env i with
    | none => gwsLoop env (i + 1) rest states
    | some wss =>
      gwsLoop env (i + 1) rest
        (wss.foldl (fun st ws => dictInsert st (ws.workspaceId.getD "") (ws.state.getD "")) states)

/-- Model of `get_workspace_states`: WorkspaceId to State for the given ids, fetched in
25-size batches, with per-batch outcomes supplied by the oracle `env`. -/
def get_workspace_states (env : Nat → Option (List Workspace)) (wsids : List String) :
    List (String × String) :=
  gwsLoop env 0 (chunked wsids 25) []

/-- Model of `filter_by_valid_state`: partition the resolved pairs into those in the
required state for the action and the skipped rows `(name, id, state)`. -/
def filter_by_valid_state (env : Nat → Option (List Workspace))
    (resolved : List (String × String)) (action : String) :
    List (String × String) × List (String × String × String) :=
  let states := get_workspace_states env (resolved.map Prod.snd)
  let required := if action = "start" then "STOPPED" else "AVAILABLE"
  let allowed := resolved.filter (fun p => decide (dictGet states p.2 = some required))
  let skipped := (resolved.filter (fun p => decide (p ∉ allowed))).map
    (fun p => (p.1, p.2, (dictGet states p.2).getD "UNKNOWN"))
  (allowed, skipped)

/-! ### CLI entry point (`main`) -/

/-- The `--file` argument: absent, a missing path, an unreadable file, or a
readable file with its lines. -/
inductive FileArg where
  | noFile
  | missing
  | ioError
  | content (lines : List String)

/-- One invocation's arguments together with oracles for every external call:
client construction, the paginated inventory fetch, per-record `DescribeTags`
outcomes, per-batch `DescribeWorkspaces` outcomes, and per-batch mutation
outcomes. -/
structure MainEnv where
  names : Option String
  file : FileArg
  action : String
  dryRun : Bool
  includeTags : Bool
  maxTagLookups : Nat
  clientOk : Bool
  inventory : Except Unit (List Workspace)
  tagEnv : String → Nat → TagCallResult
  descEnv : Nat → Option (List Workspace)
  startEnv : Nat → BatchResult
  stopEnv : Nat → BatchResult

/-- The `parse_targets` call of `main`, with its `try/except` as `Except`
(missing file and read failure both exit 3). -/
def mainTargets (e : MainEnv) : Except Nat (List String) :=
  match e.file with
  | .missing => .error 3
  | .ioError => .error 3
  | .noFile => .ok (parse_targets e.names none)
  | .content lines => .ok (parse_targets e.names (some lines))

/-- The `resolve_targets` call of `main`: skipped for an empty target list; a
`DescribeWorkspaces` failure inside it exits 4. -/
def mainResolve (e : MainEnv) (targets : List String) :
    Except Nat (List (String × String) × List String) :=
  if targets = [] then .ok ([], [])
  else
    match e.inventory with
    | .error _ => .error 4
    | .ok all_ws =>
      .ok (resolve_targets all_ws e.tagEnv targets e.includeTags e.maxTagLookups)

/-- The start/stop branch of `main`: state filter, then the batch mutation. -/
def mainStartStop (e : MainEnv) (resolved : List (String × String))
    (unresolved : List String) : Nat :=
  let fr := filter_by_valid_state e.descEnv resolved e.action
  if fr.1 = [] then (if unresolved ≠ [] then 2 else 3)
  else
    let r := start_or_stop e.startEnv e.stopEnv fr.1 e.action
    if r.2.1 ≠ [] ∨ unresolved ≠ [] then 2 else 0

/-- The action dispatch of `main` after resolution. -/
def mainAction (e : MainEnv) (resolved : List (String × String))
    (unresolved : List String) : Nat :=
  if e.action = "resolve" then
    if unresolved ≠ [] ∧ resolved ≠ [] then 2
    else if unresolved ≠ [] then 3
    else 0
  else if resolved = [] then 3
  else if e.dryRun = true then 0
  else if e.action = "start" ∨ e.action = "stop" then
    mainStartStop e resolved unresolved
  else if e.action = "users" then (if unresolved ≠ [] then 2 else 0)
  else if e.action = "status" then (if unresolved ≠ [] then 2 else 0)
  else 0

/-- Model of `main`: the CLI entry point, reduced to the exit code it ends with (Lean
reserves the name `main`, hence `mainExitCode`). -/
def mainExitCode (e : MainEnv) : Nat :=
  match mainTargets e with
  | .error c => c
  | .ok targets =>
    if targets = [] ∧ e.action ≠ "resolve" then 3
    else if e.clientOk = false then 4
    else
      match mainResolve e targets with
      | .error c => c
      | .ok ru => mainAction e ru.1 ru.2

/-! ### C7: case-insensitive order-preserving de-duplication -/

theorem dedupCIAux_sublist (seen : List String) (l : List String) :
    List.Sublist (dedupCIAux seen l) l := by
  induction l generalizing seen with
  | nil => simp [dedupCIAux]
  | cons n rest ih =>
    by_cases hmem : pyLower n ∈ seen
    · simp only [dedupCIAux, if_pos hmem]
      exact (ih seen).cons n
    · simp only [dedupCIAux, if_neg hmem]
      exact (ih (pyLower n :: seen)).cons₂ n

theorem dedupCIAux_avoid (seen : List String) (l : List String) :
    ∀ y ∈ dedupCIAux seen l, pyLower y ∉ seen := by
  induction l generalizing seen with
  | nil => simp [dedupCIAux]
  | cons n rest ih =>
    intro y hy
    by_cases hmem : pyLower n ∈ seen
    · rw [dedupCIAux, if_pos hmem] at hy
      exact ih seen y hy
    · rw [dedupCIAux, if_neg hmem] at hy
      rcases List.mem_cons.mp hy with h | h
      · subst h; exact hmem
      · have h2 := ih (pyLower n :: seen) y h
        exact fun hc => h2 (List.mem_cons_of_mem _ hc)

theorem dedupCIAux_pairwise (seen : List String) (l : List String) :
    (dedupCIAux seen l).Pairwise (fun a b => pyLower a ≠ pyLower b) := by
  induction l generalizing seen with
  | nil => simp [dedupCIAux]
  | cons n rest ih =>
    by_cases hmem : pyLower n ∈ seen
    · rw [dedupCIAux, if_pos hmem]; exact ih seen
    · rw [dedupCIAux, if_neg hmem]
      refine List.Pairwise.cons ?_ (ih (pyLower n :: seen))
      intro y hy hne
      exact dedupCIAux_avoid (pyLower n :: seen) rest y hy (by simp [hne])

theorem dedupCIAux_complete (seen : List String) (l : List String) :
    ∀ x ∈ l, pyLower x ∈ seen ∨ ∃ y ∈ dedupCIAux seen l, pyLower y = pyLower x := by
  induction l generalizing seen with
  | nil => simp
  | cons n rest ih =>
    intro x hx
    by_cases hmem : pyLower n ∈ seen
    · rcases List.mem_cons.mp hx with h | h
      · subst h; exact Or.inl hmem
      · rcases ih seen x h with h2 | ⟨y, hy, he⟩
        · exact Or.inl h2
        · refine Or.inr ⟨y, ?_, he⟩
          rw [dedupCIAux, if_pos hmem]; exact hy
    · rcases List.mem_cons.mp hx with h | h
      · refine Or.inr ⟨n, ?_, by rw [h]⟩
        rw [dedupCIAux, if_neg hmem]; exact List.mem_cons_self _ _
      · rcases ih (pyLower n :: seen) x h with h2 | ⟨y, hy, he⟩
        · rcases List.mem_cons.mp h2 with h3 | h3
          · refine Or.inr ⟨n, ?_, h3.symm⟩
            rw [dedupCIAux, if_neg hmem]; exact List.mem_cons_self n _
          · exact Or.inl h3
        · refine Or.inr ⟨y, ?_, he⟩
          rw [dedupCIAux, if_neg hmem]; exact List.mem_cons_of_mem n hy

theorem dedupCIAux_firstOcc (seen : List String) (l : List String) :
    ∀ y ∈ dedupCIAux seen l,
      l.find? (fun z => decide (pyLower z = pyLower y)) = some y := by
  induction l generalizing seen with
  | nil => simp [dedupCIAux]
  | cons n rest ih =>
    intro y hy
    by_cases hmem : pyLower n ∈ seen
    · rw [dedupCIAux, if_pos hmem] at hy
      have hne : pyLower n ≠ pyLower y := by
        intro he
        exact dedupCIAux_avoid seen rest y hy (he ▸ hmem)
      rw [List.find?_cons_of_neg _ (by simpa using hne)]
      exact ih seen y hy
    · rw [dedupCIAux, if_neg hmem] at hy
      rcases List.mem_cons.mp hy with h | h
      · subst h
        exact List.find?_cons_of_pos _ (by simp)
      · have hav := dedupCIAux_avoid (pyLower n :: seen) rest y h
        have hne : pyLower n ≠ pyLower y := fun he => hav (by simp [he])
        rw [List.find?_cons_of_neg _ (by simpa using hne)]
        exact ih (pyLower n :: seen) y h

/-- C7: target parsing merges the inline comma-separated string and the file
into an ordered list of unique targets — the output is an order-preserving
selection from the merged input, no two outputs share a lowercased form, every
merged input is represented, each output is the first occurrence (in original
spelling) of its lowercased form, and `["A","a","B"]` yields `["A","B"]`. -/
theorem C7_parse_targets_dedup (na : Option String) (fl : Option (List String)) :
    List.Sublist (parse_targets na fl) (inlineTargets na ++ fileTargets fl)
    ∧ (parse_targets na fl).Pairwise (fun a b => pyLower a ≠ pyLower b)
    ∧ (∀ x ∈ inlineTargets na ++ fileTargets fl,
        ∃ y ∈ parse_targets na fl, pyLower y = pyLower x)
    ∧ (∀ y ∈ parse_targets na fl,
        (inlineTargets na ++ fileTargets fl).find?
          (fun z => decide (pyLower z = pyLower y)) = some y)
    ∧ parse_targets (some "A,a,B") none = ["A", "B"] := by
  refine ⟨dedupCIAux_sublist [] _, dedupCIAux_pairwise [] _, ?_,
    dedupCIAux_firstOcc [] _, ?_⟩
  · intro x hx
    rcases dedupCIAux_complete [] _ x hx with h | h
    · simp at h
    · exact h
  · decide

/-- C7 witness: the concrete de-duplication example, via the claim theorem. -/
theorem C7_witness : parse_targets (some "A,a,B") none = ["A", "B"] :=
  (C7_parse_targets_dedup (some "A,a,B") none).2.2.2.2

/-! ### Dictionary lemmas -/

theorem dictGet_dictInsert_self {α : Type} (m : List (String × α)) (k : String) (v : α) :
    dictGet (dictInsert m k v) k = some v := by
  induction m with
  | nil => simp [dictInsert, dictGet]
  | cons p rest ih =>
    obtain ⟨k2, v2⟩ := p
    by_cases h : k2 = k
    · simp [dictInsert, dictGet, h]
    · simp [dictInsert, dictGet, h, ih]

theorem dictGet_dictInsert_ne {α : Type} (m : List (String × α)) (k q : String) (v : α)
    (h : q ≠ k) : dictGet (dictInsert m k v) q = dictGet m q := by
  induction m with
  | nil => simp [dictInsert, dictGet, Ne.symm h]
  | cons p rest ih =>
    obtain ⟨k2, v2⟩ := p
    by_cases h2 : k2 = k
    · subst h2
      simp [dictInsert, dictGet, Ne.symm h]
    · simp [dictInsert, dictGet, h2, ih]

/-! ### C4 / C8: the resolution index and phase-1 matching -/

theorem dictGet_insertKeys (keys : List String) (m : List (String × String))
    (wsid k : String) :
    dictGet (keys.foldl (fun m2 k2 => dictInsert m2 (pyLower k2) wsid) m) k =
      if k ∈ keys.map pyLower then some wsid else dictGet m k := by
  induction keys generalizing m with
  | nil => simp
  | cons a rest ih =>
    simp only [List.foldl_cons, List.map_cons, List.mem_cons]
    rw [ih]
    by_cases hk : k ∈ rest.map pyLower
    · simp [hk]
    · by_cases ha : k = pyLower a
      · simp [hk, ha, dictGet_dictInsert_self]
      · simp [hk, ha, dictGet_dictInsert_ne _ _ _ _ ha]

/-- One step of the last-write-wins specification: the candidate id after the
indexing loop has processed record `ws`, given the previous candidate `a`. -/
def lastKeyStep (k : String) (a : Option String) (ws : Workspace) : Option String :=
  match ws.workspaceId with
  | none => a
  | some wsid => if wsid = "" then a else if k ∈ lowerKeys ws then some wsid else a

/-- The id of the last record (in fetch order) carrying key `k`, folded over an
initial candidate — the specification of last-write-wins indexing. -/
def lastIdWithKeyAux (k : String) : Option String → List Workspace → Option String
  | a, [] => a
  | a, ws :: rest => lastIdWithKeyAux k (lastKeyStep k a ws) rest

/-- The id of the last record (in fetch order) indexed under key `k`. -/
def lastIdWithKey (l : List Workspace) (k : String) : Option String :=
  lastIdWithKeyAux k none l

theorem buildIndexStep_get (acc : List (String × Workspace) × List (String × String))
    (ws : Workspace) (k : String) :
    dictGet (buildIndexStep acc ws).2 k = lastKeyStep k (dictGet acc.2 k) ws := by
  cases h : ws.workspaceId with
  | none => simp [buildIndexStep, lastKeyStep, h]
  | some wsid =>
    simp only [buildIndexStep, lastKeyStep, h]
    by_cases hw : wsid = ""
    · rw [if_pos hw, if_pos hw]
    · rw [if_neg hw, if_neg hw]
      rw [dictGet_insertKeys]
      simp [lowerKeys, h, hw]

theorem buildIndex_foldl_get (l : List Workspace)
    (acc : List (String × Workspace) × List (String × String)) (k : String) :
    dictGet (l.foldl buildIndexStep acc).2 k = lastIdWithKeyAux k (dictGet acc.2 k) l := by
  induction l generalizing acc with
  | nil => simp [lastIdWithKeyAux]
  | cons ws rest ih =>
    simp only [List.foldl_cons, lastIdWithKeyAux]
    rw [ih, buildIndexStep_get]

theorem names_index_get (l : List Workspace) (k : String) :
    dictGet (build_index_without_tags l).2 k = lastIdWithKey l k :=
  buildIndex_foldl_get l ([], []) k

theorem lastIdWithKeyAux_sound (k : String) (l : List Workspace) (a : Option String)
    (v : String) (h : lastIdWithKeyAux k a l = some v) :
    a = some v ∨ ∃ ws ∈ l, ws.workspaceId = some v ∧ v ≠ "" ∧ k ∈ lowerKeys ws := by
  induction l generalizing a with
  | nil => exact Or.inl h
  | cons ws rest ih =>
    rw [lastIdWithKeyAux] at h
    have step : lastKeyStep k a ws = a ∨
        (lastKeyStep k a ws = some v →
          ws.workspaceId = some v ∧ v ≠ "" ∧ k ∈ lowerKeys ws) := by
      cases hid : ws.workspaceId with
      | none => exact Or.inl (by simp [lastKeyStep, hid])
      | some wsid =>
        by_cases hw : wsid = ""
        · exact Or.inl (by simp [lastKeyStep, hid, hw])
        · by_cases hkk : k ∈ lowerKeys ws
          · refine Or.inr (fun hs => ?_)
            simp only [lastKeyStep, hid, if_neg hw, if_pos hkk,
              Option.some.injEq] at hs
            subst hs
            exact ⟨rfl, hw, hkk⟩
          · exact Or.inl (by simp [lastKeyStep, hid, hw, hkk])
    rcases ih _ h with h2 | ⟨ws2, hm, hp⟩
    · rcases step with hs | hs
      · exact Or.inl (hs ▸ h2)
      · exact Or.inr ⟨ws, List.mem_cons_self _ _, hs h2⟩
    · exact Or.inr ⟨ws2, List.mem_cons_of_mem _ hm, hp⟩

theorem lastIdWithKeyAux_isSome_mono (k : String) (l : List Workspace) (a : Option String)
    (h : a.isSome) : (lastIdWithKeyAux k a l).isSome := by
  induction l generalizing a with
  | nil => exact h
  | cons ws rest ih =>
    rw [lastIdWithKeyAux]
    apply ih
    cases hid : ws.workspaceId with
    | none => simpa [lastKeyStep, hid] using h
    | some wsid =>
      by_cases hw : wsid = ""
      · simpa [lastKeyStep, hid, hw] using h
      · by_cases hkk : k ∈ lowerKeys ws
        · simp [lastKeyStep, hid, hw, hkk]
        · simpa [lastKeyStep, hid, hw, hkk] using h

theorem lowerKeys_mem_id (ws : Workspace) (k : String) (hk : k ∈ lowerKeys ws) :
    ∃ wsid, ws.workspaceId = some wsid ∧ wsid ≠ "" := by
  cases hid : ws.workspaceId with
  | none => simp [lowerKeys, hid] at hk
  | some wsid =>
    by_cases hw : wsid = ""
    · simp [lowerKeys, hid, hw] at hk
    · exact ⟨wsid, rfl, hw⟩

theorem lastIdWithKeyAux_isSome_of_mem (k : String) (l : List Workspace)
    (a : Option String) (ws : Workspace) (hmem : ws ∈ l) (hk : k ∈ lowerKeys ws) :
    (lastIdWithKeyAux k a l).isSome := by
  induction l generalizing a with
  | nil => cases hmem
  | cons w rest ih =>
    rcases List.mem_cons.mp hmem with he | hm
    · subst he
      rw [lastIdWithKeyAux]
      apply lastIdWithKeyAux_isSome_mono
      obtain ⟨wsid, hid, hw⟩ := lowerKeys_mem_id ws k hk
      simp [lastKeyStep, hid, hw, hk]
    · rw [lastIdWithKeyAux]
      exact ih _ hm

theorem phase1_mem_resolved (idx : List (String × String)) (targets : List String)
    (t wsid : String) (ht : t ∈ targets) (h : dictGet idx (pyLower t) = some wsid)
    (hne : wsid ≠ "") : (t, wsid) ∈ (phase1 idx targets).1 := by
  induction targets with
  | nil => cases ht
  | cons a rest ih =>
    rcases List.mem_cons.mp ht with he | hm
    · subst he
      simp only [phase1, h, if_neg hne]
      exact List.mem_cons_self _ _
    · simp only [phase1]
      cases hd : dictGet idx (pyLower a) with
      | none => exact ih hm
      | some w =>
        by_cases hw : w = ""
        · simp only [if_pos hw]; exact ih hm
        · simp only [if_neg hw]; exact List.mem_cons_of_mem _ (ih hm)

theorem phase1_mem_unresolved (idx : List (String × String)) (targets : List String)
    (t : String) (ht : t ∈ targets)
    (h : dictGet idx (pyLower t) = none ∨ dictGet idx (pyLower t) = some "") :
    t ∈ (phase1 idx targets).2 := by
  induction targets with
  | nil => cases ht
  | cons a rest ih =>
    rcases List.mem_cons.mp ht with he | hm
    · subst he
      rcases h with h | h
      · simp only [phase1, h]; exact List.mem_cons_self _ _
      · simp only [phase1, h, if_pos rfl]; exact List.mem_cons_self _ _
    · simp only [phase1]
      cases hd : dictGet idx (pyLower a) with
      | none => exact List.mem_cons_of_mem _ (ih hm)
      | some w =>
        by_cases hw : w = ""
        · simp only [if_pos hw]; exact List.mem_cons_of_mem _ (ih hm)
        · simp only [if_neg hw]; exact ih hm

theorem resolve_targets_resolved_superset (all_ws : List Workspace)
    (tagEnv : String → Nat → TagCallResult) (targets : List String) (it : Bool)
    (cap : Nat) (p : String × String)
    (h : p ∈ (phase1 (build_index_without_tags all_ws).2 targets).1) :
    p ∈ (resolve_targets all_ws tagEnv targets it cap).1 := by
  rw [resolve_targets]
  split
  · exact List.mem_append_left _ h
  · exact h

theorem resolve_targets_unresolved_no_tags (all_ws : List Workspace)
    (tagEnv : String → Nat → TagCallResult) (targets : List String) (cap : Nat) :
    (resolve_targets all_ws tagEnv targets false cap).2 =
      (phase1 (build_index_without_tags all_ws).2 targets).2 := by
  rw [resolve_targets]
  split
  · next hc => exact absurd hc.1 (by simp)
  · rfl

/-- C4: a target whose lowercased form equals the lowercased canonical ID,
computer name, or user name of some indexed record resolves in phase 1 (in its
original spelling) to the canonical ID of such a record; a target with no such
match lands in the phase-1 unresolved list (the phase-2 input), and is reported
unresolved when the tag fallback is off. -/
theorem C4_phase1_exact (l : List Workspace) (tagEnv : String → Nat → TagCallResult)
    (targets : List String) (it : Bool) (cap : Nat) (t : String) (ht : t ∈ targets) :
    ((∃ ws ∈ l, pyLower t ∈ lowerKeys ws) →
      ∃ ws ∈ l, pyLower t ∈ lowerKeys ws ∧ ∃ wsid, ws.workspaceId = some wsid ∧
        (t, wsid) ∈ (phase1 (build_index_without_tags l).2 targets).1 ∧
        (t, wsid) ∈ (resolve_targets l tagEnv targets it cap).1)
    ∧ ((¬∃ ws ∈ l, pyLower t ∈ lowerKeys ws) →
      t ∈ (phase1 (build_index_without_tags l).2 targets).2 ∧
      (it = false → t ∈ (resolve_targets l tagEnv targets false cap).2)) := by
  constructor
  · rintro ⟨ws, hmem, hk⟩
    have hsome : (lastIdWithKey l (pyLower t)).isSome :=
      lastIdWithKeyAux_isSome_of_mem _ l none ws hmem hk
    obtain ⟨v, hv⟩ := Option.isSome_iff_exists.mp hsome
    have hget : dictGet (build_index_without_tags l).2 (pyLower t) = some v := by
      rw [names_index_get]; exact hv
    rcases lastIdWithKeyAux_sound _ l none v hv with h | ⟨ws2, hmem2, hid2, hvne, hk2⟩
    · cases h
    · refine ⟨ws2, hmem2, hk2, v, hid2, ?_, ?_⟩
      · exact phase1_mem_resolved _ _ _ _ ht hget hvne
      · exact resolve_targets_resolved_superset l tagEnv targets it cap _
          (phase1_mem_resolved _ _ _ _ ht hget hvne)
  · intro hno
    have hnot : dictGet (build_index_without_tags l).2 (pyLower t) = none ∨
        dictGet (build_index_without_tags l).2 (pyLower t) = some "" := by
      cases hg : dictGet (build_index_without_tags l).2 (pyLower t) with
      | none => exact Or.inl rfl
      | some v =>
        rw [names_index_get] at hg
        rcases lastIdWithKeyAux_sound _ l none v hg with h | ⟨ws2, hmem2, _, _, hk2⟩
        · cases h
        · exact absurd ⟨ws2, hmem2, hk2⟩ hno
    refine ⟨phase1_mem_unresolved _ _ _ ht hnot, fun _ => ?_⟩
    rw [resolve_targets_unresolved_no_tags]
    exact phase1_mem_unresolved _ _ _ ht hnot

/-- C4 witness: a concrete one-record inventory in which the claim theorem
applies, its hypotheses discharged by computation. -/
theorem C4_witness :
    ∃ ws ∈ ([⟨some "ws-7", some "PC9", some "bob", none⟩] : List Workspace),
      pyLower "WS-7" ∈ lowerKeys ws ∧ ∃ wsid, ws.workspaceId = some wsid ∧
        (("WS-7", wsid) ∈
          (phase1 (build_index_without_tags
            [⟨some "ws-7", some "PC9", some "bob", none⟩]).2 ["WS-7", "ghost"]).1) ∧
        (("WS-7", wsid) ∈
          (resolve_targets [⟨some "ws-7", some "PC9", some "bob", none⟩]
            (fun _ _ => TagCallResult.botoCoreError) ["WS-7", "ghost"] false 500).1) :=
  (C4_phase1_exact [⟨some "ws-7", some "PC9", some "bob", none⟩]
    (fun _ _ => TagCallResult.botoCoreError) ["WS-7", "ghost"] false 500 "WS-7"
    (by decide)).1
    ⟨⟨some "ws-7", some "PC9", some "bob", none⟩, by decide, by decide⟩

theorem lastIdWithKeyAux_append (k : String) (xs ys : List Workspace) (a : Option String) :
    lastIdWithKeyAux k a (xs ++ ys) = lastIdWithKeyAux k (lastIdWithKeyAux k a xs) ys := by
  induction xs generalizing a with
  | nil => rfl
  | cons w rest ih => rw [List.cons_append, lastIdWithKeyAux, lastIdWithKeyAux, ih]

theorem lastIdWithKeyAux_no_key (k : String) (l : List Workspace) (a : Option String)
    (h : ∀ ws ∈ l, k ∉ lowerKeys ws) : lastIdWithKeyAux k a l = a := by
  induction l generalizing a with
  | nil => rfl
  | cons w rest ih =>
    rw [lastIdWithKeyAux]
    have hstep : lastKeyStep k a w = a := by
      cases hid : w.workspaceId with
      | none => simp [lastKeyStep, hid]
      | some wsid =>
        by_cases hw : wsid = ""
        · simp [lastKeyStep, hid, hw]
        · simp [lastKeyStep, hid, hw, h w (List.mem_cons_self _ _)]
    rw [hstep]
    exact ih _ (fun ws hm => h ws (List.mem_cons_of_mem _ hm))

/-- C8: when two distinct inventory records share a lowercased identifying key,
the index maps that key to the record indexed last in fetch order
(last-write-wins), and a target matching that key resolves in phase 1 to the
later record's canonical ID. -/
theorem C8_last_write_wins (l1 l2 l3 : List Workspace) (w1 w2 : Workspace)
    (k id1 id2 : String)
    (h1 : w1.workspaceId = some id1) (h1n : id1 ≠ "") (hk1 : k ∈ lowerKeys w1)
    (h2 : w2.workspaceId = some id2) (h2n : id2 ≠ "") (hk2 : k ∈ lowerKeys w2)
    (h3 : ∀ ws ∈ l3, k ∉ lowerKeys ws) :
    dictGet (build_index_without_tags (l1 ++ w1 :: l2 ++ w2 :: l3)).2 k = some id2
    ∧ ∀ (t : String) (targets : List String), pyLower t = k → t ∈ targets →
        (t, id2) ∈
          (phase1 (build_index_without_tags (l1 ++ w1 :: l2 ++ w2 :: l3)).2 targets).1 := by
  have hidx : dictGet (build_index_without_tags (l1 ++ w1 :: l2 ++ w2 :: l3)).2 k
      = some id2 := by
    rw [names_index_get, lastIdWithKey,
      show l1 ++ w1 :: l2 ++ w2 :: l3 = (l1 ++ w1 :: l2) ++ (w2 :: l3) by simp,
      lastIdWithKeyAux_append, lastIdWithKeyAux]
    have hstep : lastKeyStep k (lastIdWithKeyAux k none (l1 ++ w1 :: l2)) w2 = some id2 := by
      simp only [lastKeyStep, h2, if_neg h2n, if_pos hk2]
    rw [hstep]
    exact lastIdWithKeyAux_no_key k l3 _ h3
  refine ⟨hidx, fun t targets hlt htm => ?_⟩
  exact phase1_mem_resolved _ _ _ _ htm (by rw [hlt]; exact hidx) h2n

/-- C8 witness: two records sharing the computer-name key `pc`; lookup and
phase-1 resolution return the later record's id. -/
theorem C8_witness :
    dictGet (build_index_without_tags
      ([] ++ (⟨some "ws-1", some "PC", none, none⟩ : Workspace) :: [] ++
        (⟨some "ws-2", some "PC", none, none⟩ : Workspace) :: [])).2 "pc" = some "ws-2"
    ∧ ("PC", "ws-2") ∈
        (phase1 (build_index_without_tags
          ([] ++ (⟨some "ws-1", some "PC", none, none⟩ : Workspace) :: [] ++
            (⟨some "ws-2", some "PC", none, none⟩ : Workspace) :: [])).2 ["PC"]).1 := by
  have h := C8_last_write_wins [] [] [] ⟨some "ws-1", some "PC", none, none⟩
    ⟨some "ws-2", some "PC", none, none⟩ "pc" "ws-1" "ws-2"
    (by decide) (by decide) (by decide) (by decide) (by decide) (by decide)
    (by intro ws hm; cases hm)
  exact ⟨h.1, h.2 "PC" ["PC"] (by decide) (by decide)⟩

/-! ### C3: the bounded Name-tag sweep -/

theorem phase2_cons_cases (tagEnv : String → Nat → TagCallResult) (cap : Nat)
    (ws : Workspace) (rest : List Workspace) (st : Phase2State) :
    phase2 tagEnv cap (ws :: rest) st = st ∨
    ∃ st2 : Phase2State, phase2 tagEnv cap (ws :: rest) st = phase2 tagEnv cap rest st2 ∧
      (st2 = st ∨
        (st2.tag_lookups = st.tag_lookups + 1 ∧ st.tag_lookups < cap ∧
          ∃ w, st2.calls = st.calls ++ [w])) := by
  rw [phase2]
  by_cases h1 : st.unresolved_lc = []
  · rw [if_pos h1]; exact Or.inl rfl
  · rw [if_neg h1]
    by_cases h2 : cap ≤ st.tag_lookups
    · rw [if_pos h2]; exact Or.inl rfl
    · rw [if_neg h2]
      have hlt : st.tag_lookups < cap := lt_of_not_le h2
      cases hid : ws.workspaceId with
      | none =>
        simp only [hid]
        exact Or.inr ⟨st, rfl, Or.inl rfl⟩
      | some wsid =>
        simp only [hid]
        by_cases hw : wsid = ""
        · rw [if_pos hw]
          exact Or.inr ⟨st, rfl, Or.inl rfl⟩
        · rw [if_neg hw]
          by_cases ht : tagNameOf (safe_describe_tags (tagEnv wsid)).1 = ""
          · rw [if_pos ht]
            exact Or.inr ⟨_, rfl, Or.inr ⟨rfl, hlt, wsid, rfl⟩⟩
          · rw [if_neg ht]
            cases hd : dictGet st.unresolved_lc (tagNameOf (safe_describe_tags (tagEnv wsid)).1) with
            | none =>
              simp only [hd]
              exact Or.inr ⟨_, rfl, Or.inr ⟨rfl, hlt, wsid, rfl⟩⟩
            | some original =>
              simp only [hd]
              exact Or.inr ⟨_, rfl, Or.inr ⟨rfl, hlt, wsid, rfl⟩⟩

theorem phase2_stop (tagEnv : String → Nat → TagCallResult) (cap : Nat)
    (l : List Workspace) (st : Phase2State)
    (h : st.unresolved_lc = [] ∨ cap ≤ st.tag_lookups) : phase2 tagEnv cap l st = st := by
  cases l with
  | nil => rfl
  | cons ws rest =>
    rw [phase2]
    rcases h with h | h
    · rw [if_pos h]
    · by_cases h1 : st.unresolved_lc = []
      · rw [if_pos h1]
      · rw [if_neg h1, if_pos h]

theorem phase2_lookups_le (tagEnv : String → Nat → TagCallResult) (cap : Nat)
    (l : List Workspace) : ∀ st : Phase2State, st.tag_lookups ≤ cap →
    (phase2 tagEnv cap l st).tag_lookups ≤ cap := by
  induction l with
  | nil => intro st h; exact h
  | cons ws rest ih =>
    intro st h
    rcases phase2_cons_cases tagEnv cap ws rest st with he | ⟨st2, he, hs⟩
    · rw [he]; exact h
    · rw [he]
      rcases hs with rfl | ⟨hl, hlt, _⟩
      · exact ih st2 h
      · exact ih st2 (by omega)

theorem phase2_calls_eq (tagEnv : String → Nat → TagCallResult) (cap : Nat)
    (l : List Workspace) : ∀ st : Phase2State,
    (phase2 tagEnv cap l st).calls.length + st.tag_lookups
      = st.calls.length + (phase2 tagEnv cap l st).tag_lookups := by
  induction l with
  | nil => intro st; rfl
  | cons ws rest ih =>
    intro st
    rcases phase2_cons_cases tagEnv cap ws rest st with he | ⟨st2, he, hs⟩
    · rw [he]
    · rw [he]
      rcases hs with rfl | ⟨hl, _, w, hc⟩
      · exact ih st2
      · have h2 := ih st2
        rw [hl, hc, List.length_append] at h2
        simp only [List.length_singleton] at h2
        omega

theorem resolve_targets_matched_mem (all_ws : List Workspace)
    (tagEnv : String → Nat → TagCallResult) (targets : List String) (cap : Nat)
    (p : String × String)
    (hp : p ∈ (phase2 tagEnv cap all_ws
      ⟨buildUnresolvedLc (phase1 (build_index_without_tags all_ws).2 targets).2,
        [], 0, []⟩).matched_now) :
    p ∈ (resolve_targets all_ws tagEnv targets true cap).1 := by
  rw [resolve_targets]
  split
  · exact List.mem_append_right _ hp
  · next hc =>
    have hun : (phase1 (build_index_without_tags all_ws).2 targets).2 = [] := by
      by_contra hne; exact hc ⟨rfl, hne⟩
    rw [hun] at hp
    rw [phase2_stop tagEnv cap all_ws _ (Or.inl rfl)] at hp
    cases hp

/-- C3: the fallback sweep performs at most `cap` lookups (its counter, started
at 0, never exceeds the cap), the counter counts exactly the `DescribeTags`
calls attempted (one per attempted record, whatever the outcome), scanning
stops as soon as the unresolved set is empty or the counter has reached the
cap, and every pair matched before stopping is still returned by the resolver. -/
theorem C3_fallback_bounded (all_ws : List Workspace)
    (tagEnv : String → Nat → TagCallResult) (targets : List String) (cap : Nat) :
    ((phase2 tagEnv cap all_ws
        ⟨buildUnresolvedLc (phase1 (build_index_without_tags all_ws).2 targets).2,
          [], 0, []⟩).tag_lookups ≤ cap)
    ∧ ((phase2 tagEnv cap all_ws
        ⟨buildUnresolvedLc (phase1 (build_index_without_tags all_ws).2 targets).2,
          [], 0, []⟩).calls.length
      = (phase2 tagEnv cap all_ws
        ⟨buildUnresolvedLc (phase1 (build_index_without_tags all_ws).2 targets).2,
          [], 0, []⟩).tag_lookups)
    ∧ (∀ (st : Phase2State) (l : List Workspace),
        st.unresolved_lc = [] ∨ cap ≤ st.tag_lookups → phase2 tagEnv cap l st = st)
    ∧ (∀ p ∈ (phase2 tagEnv cap all_ws
        ⟨buildUnresolvedLc (phase1 (build_index_without_tags all_ws).2 targets).2,
          [], 0, []⟩).matched_now,
        p ∈ (resolve_targets all_ws tagEnv targets true cap).1) := by
  refine ⟨phase2_lookups_le tagEnv cap all_ws _ (Nat.zero_le cap), ?_,
    fun st l h => phase2_stop tagEnv cap l st h,
    fun p hp => resolve_targets_matched_mem all_ws tagEnv targets cap p hp⟩
  have h := phase2_calls_eq tagEnv cap all_ws
    ⟨buildUnresolvedLc (phase1 (build_index_without_tags all_ws).2 targets).2, [], 0, []⟩
  simpa using h

/-- C3 witness: with a cap of 1 and two unresolved targets over a two-record
inventory, the sweep performs at most one lookup. -/
theorem C3_witness :
    (phase2 (fun _ _ => TagCallResult.ok [("Name", some "foo")]) 1
      [⟨some "w1", none, none, none⟩, ⟨some "w2", none, none, none⟩]
      ⟨buildUnresolvedLc (phase1 (build_index_without_tags
        [⟨some "w1", none, none, none⟩, ⟨some "w2", none, none, none⟩]).2
        ["foo", "bar"]).2, [], 0, []⟩).tag_lookups ≤ 1 :=
  (C3_fallback_bounded [⟨some "w1", none, none, none⟩, ⟨some "w2", none, none, none⟩]
    (fun _ _ => TagCallResult.ok [("Name", some "foo")]) ["foo", "bar"] 1).1

/-! ### C6: the `safe_describe_tags` retry policy -/

theorem sdtLoop_attempts_le (rs : List TagCallResult) (b : ℚ) :
    (sdtLoop rs b).2.2 ≤ rs.length := by
  induction rs generalizing b with
  | nil => simp [sdtLoop]
  | cons r rest ih =>
    cases r with
    | ok tl => simp [sdtLoop]
    | botoCoreError => simp [sdtLoop]
    | clientError code =>
      by_cases hc : code ∈ rateLimitCodes
      · simp only [sdtLoop, if_pos hc, List.length_cons]
        exact Nat.succ_le_succ (ih _)
      · simp only [sdtLoop, if_neg hc, List.length_cons]
        exact Nat.succ_le_succ (Nat.zero_le _)

theorem sdtLoop_retries_rl (rs : List TagCallResult) (b : ℚ) :
    ∀ j, j + 1 < (sdtLoop rs b).2.2 →
      ∃ r, rs.get? j = some r ∧ isRateLimited r = true := by
  induction rs generalizing b with
  | nil => intro j h; simp [sdtLoop] at h
  | cons r rest ih =>
    intro j h
    cases r with
    | ok tl => simp [sdtLoop] at h
    | botoCoreError => simp [sdtLoop] at h
    | clientError code =>
      by_cases hc : code ∈ rateLimitCodes
      · simp only [sdtLoop, if_pos hc] at h
        cases j with
        | zero => exact ⟨.clientError code, rfl, by simp [isRateLimited, hc]⟩
        | succ k =>
          obtain ⟨r2, hr2, hrl⟩ := ih (min (b * 2) 4) k (by omega)
          exact ⟨r2, by simpa using hr2, hrl⟩
      · simp [sdtLoop, if_neg hc] at h
  
theorem sdtLoop_sleeps_take (rs : List TagCallResult) (b : ℚ) :
    (sdtLoop rs b).2.1 = (backoffSched rs.length b).take (sdtLoop rs b).2.1.length := by
  induction rs generalizing b with
  | nil => simp [sdtLoop]
  | cons r rest ih =>
    cases r with
    | ok tl => simp [sdtLoop]
    | botoCoreError => simp [sdtLoop]
    | clientError code =>
      by_cases hc : code ∈ rateLimitCodes
      · simp only [sdtLoop, if_pos hc, List.length_cons, backoffSched, List.take_succ_cons]
        rw [← ih _]
      · simp [sdtLoop, if_neg hc]

theorem sdtLoop_all_rl (rs : List TagCallResult) (b : ℚ)
    (h : ∀ r ∈ rs, isRateLimited r = true) :
    sdtLoop rs b = ([], backoffSched rs.length b, rs.length) := by
  induction rs generalizing b with
  | nil => simp [sdtLoop, backoffSched]
  | cons r rest ih =>
    cases r with
    | ok tl => exact absurd (h _ (List.mem_cons_self _ _)) (by simp [isRateLimited])
    | botoCoreError => exact absurd (h _ (List.mem_cons_self _ _)) (by simp [isRateLimited])
    | clientError code =>
      have hc : code ∈ rateLimitCodes := by
        have h2 := h _ (List.mem_cons_self _ _)
        simpa [isRateLimited] using h2
      simp only [sdtLoop, if_pos hc, backoffSched, List.length_cons]
      rw [ih _ (fun r hr => h r (List.mem_cons_of_mem _ hr))]

/-- The dictionary a single `DescribeTags` outcome yields when it is the
deciding (non-retried) attempt: the response tags on success, `{}` otherwise. -/
def tagOutcomeDict : TagCallResult → List (String × String)
  | .ok tl => tagDictOf tl
  | _ => []

theorem sdtLoop_decides (rs1 : List TagCallResult) (r : TagCallResult)
    (rs2 : List TagCallResult) (b : ℚ)
    (h1 : ∀ x ∈ rs1, isRateLimited x = true) (h2 : isRateLimited r = false) :
    (sdtLoop (rs1 ++ r :: rs2) b).1 = tagOutcomeDict r
    ∧ (sdtLoop (rs1 ++ r :: rs2) b).2.2 = rs1.length + 1 := by
  induction rs1 generalizing b with
  | nil =>
    cases r with
    | ok tl => simp [sdtLoop, tagOutcomeDict]
    | botoCoreError => simp [sdtLoop, tagOutcomeDict]
    | clientError code =>
      have hc : code ∉ rateLimitCodes := by
        simpa [isRateLimited] using h2
      simp [sdtLoop, if_neg hc, tagOutcomeDict]
  | cons x rest ih =>
    cases x with
    | ok tl => exact absurd (h1 _ (List.mem_cons_self _ _)) (by simp [isRateLimited])
    | botoCoreError => exact absurd (h1 _ (List.mem_cons_self _ _)) (by simp [isRateLimited])
    | clientError code =>
      have hc : code ∈ rateLimitCodes := by
        have h3 := h1 _ (List.mem_cons_self _ _)
        simpa [isRateLimited] using h3
      have ihr := ih (min (b * 2) 4) (fun y hy => h1 y (List.mem_cons_of_mem _ hy))
      simp only [List.cons_append, sdtLoop, if_pos hc, List.length_cons]
      exact ⟨ihr.1, by rw [List.append_eq, ihr.2]⟩

/-- C6: a per-record label lookup makes at most 5 attempts, retries only after a
rate-limit error, sleeps along the doubling schedule 0.5, 1, 2, 4, 4 (capped at
4.0), returns the empty dictionary when all 5 attempts are rate-limited, and —
when some first non-rate-limit outcome occurs within the 5 attempts — ends
there, yielding the response tags on success and the empty dictionary on any
other error; no error surfaces. -/
theorem C6_retry_policy (env : Nat → TagCallResult) :
    (safe_describe_tags env).2.2 ≤ 5
    ∧ (∀ j, j + 1 < (safe_describe_tags env).2.2 → isRateLimited (env j) = true)
    ∧ (safe_describe_tags env).2.1 =
        ([(1 : ℚ)/2, 1, 2, 4, 4]).take (safe_describe_tags env).2.1.length
    ∧ backoffSched 5 ((1 : ℚ)/2) = [1/2, 1, 2, 4, 4]
    ∧ ((∀ i < 5, isRateLimited (env i) = true) →
        safe_describe_tags env = ([], [(1 : ℚ)/2, 1, 2, 4, 4], 5))
    ∧ (∀ i, i < 5 → (∀ j < i, isRateLimited (env j) = true) →
        isRateLimited (env i) = false →
        (safe_describe_tags env).1 = tagOutcomeDict (env i)
        ∧ (safe_describe_tags env).2.2 = i + 1) := by
  have hsched : backoffSched 5 ((1 : ℚ)/2) = [1/2, 1, 2, 4, 4] := by
    norm_num [backoffSched, min_def]
  have hrs : (List.range 5).map env = [env 0, env 1, env 2, env 3, env 4] := by rfl
  refine ⟨?_, ?_, ?_, hsched, ?_, ?_⟩
  · have h := sdtLoop_attempts_le ((List.range 5).map env) (1/2)
    simpa [safe_describe_tags] using h
  · intro j hj
    rw [safe_describe_tags] at hj
    obtain ⟨r, hr, hrl⟩ := sdtLoop_retries_rl ((List.range 5).map env) (1/2) j hj
    have hlt : j < 5 := by
      have h5 := sdtLoop_attempts_le ((List.range 5).map env) (1/2)
      simp only [List.length_map, List.length_range] at h5
      omega
    have hre : r = env j := by
      rw [List.get?_map, List.get?_range hlt] at hr
      simpa using hr.symm
    rw [← hre]
    exact hrl
  · have h := sdtLoop_sleeps_take ((List.range 5).map env) (1/2)
    rw [hrs] at h
    have h5 : backoffSched ([env 0, env 1, env 2, env 3, env 4]).length ((1:ℚ)/2)
        = [1/2, 1, 2, 4, 4] := by simpa using hsched
    rw [h5] at h
    simpa [safe_describe_tags, hrs] using h
  · intro hall
    have h := sdtLoop_all_rl ((List.range 5).map env) (1/2) ?_
    · rw [safe_describe_tags, h]
      simp only [List.length_map, List.length_range]
      rw [hsched]
    · intro r hr
      rw [List.mem_map] at hr
      obtain ⟨i, hi, rfl⟩ := hr
      rw [List.mem_range] at hi
      exact hall i hi
  · intro i hi hprev hdec
    have key : ∀ (rs1 : List TagCallResult) (rs2 : List TagCallResult),
        (List.range 5).map env = rs1 ++ env i :: rs2 →
        (∀ x ∈ rs1, isRateLimited x = true) → rs1.length = i →
        (safe_describe_tags env).1 = tagOutcomeDict (env i)
        ∧ (safe_describe_tags env).2.2 = i + 1 := by
      intro rs1 rs2 heq hall hlen
      have h := sdtLoop_decides rs1 (env i) rs2 (1/2) hall hdec
      rw [safe_describe_tags, heq]
      exact ⟨h.1, by rw [h.2, hlen]⟩
    interval_cases i
    · exact key [] [env 1, env 2, env 3, env 4] hrs (by simp) rfl
    · refine key [env 0] [env 2, env 3, env 4] hrs ?_ rfl
      intro x hx
      simp only [List.mem_cons, List.not_mem_nil, or_false] at hx
      subst hx; exact hprev 0 (by omega)
    · refine key [env 0, env 1] [env 3, env 4] hrs ?_ rfl
      intro x hx
      simp only [List.mem_cons, List.not_mem_nil, or_false] at hx
      rcases hx with rfl | rfl
      · exact hprev 0 (by omega)
      · exact hprev 1 (by omega)
    · refine key [env 0, env 1, env 2] [env 4] hrs ?_ rfl
      intro x hx
      simp only [List.mem_cons, List.not_mem_nil, or_false] at hx
      rcases hx with rfl | rfl | rfl
      · exact hprev 0 (by omega)
      · exact hprev 1 (by omega)
      · exact hprev 2 (by omega)
    · refine key [env 0, env 1, env 2, env 3] [] hrs ?_ rfl
      intro x hx
      simp only [List.mem_cons, List.not_mem_nil, or_false] at hx
      rcases hx with rfl | rfl | rfl | rfl
      · exact hprev 0 (by omega)
      · exact hprev 1 (by omega)
      · exact hprev 2 (by omega)
      · exact hprev 3 (by omega)

/-- C6 witness: with every attempt rate-limited, the lookup yields the empty
dictionary after exactly 5 attempts and the full backoff schedule. -/
theorem C6_witness :
    safe_describe_tags (fun _ => TagCallResult.clientError "Throttling")
      = ([], [(1 : ℚ)/2, 1, 2, 4, 4], 5) :=
  ((C6_retry_policy (fun _ => TagCallResult.clientError "Throttling")).2.2.2.2.1)
    (by intro i _; simp [isRateLimited, rateLimitCodes])

/-! ### C2: batch actuation -/

theorem chunkedAux_length_le {α : Type} (size : Nat) (hs : 0 < size) (l : List α) :
    ∀ buf : List α, buf.length < size → ∀ b ∈ chunkedAux size buf l, b.length ≤ size := by
  induction l with
  | nil =>
    intro buf hb b hb2
    rw [chunkedAux] at hb2
    split at hb2
    · cases hb2
    · rw [List.mem_singleton] at hb2
      subst hb2
      omega
  | cons x rest ih =>
    intro buf hb b hb2
    rw [chunkedAux] at hb2
    by_cases he : (buf ++ [x]).length = size
    · rw [if_pos he] at hb2
      rcases List.mem_cons.mp hb2 with rfl | hm
      · omega
      · exact ih [] (by simpa using hs) b hm
    · rw [if_neg he] at hb2
      have hlen : (buf ++ [x]).length < size := by
        simp only [List.length_append, List.length_singleton] at he hb ⊢
        omega
      exact ih _ hlen b hb2

theorem chunkedAux_flatten {α : Type} (size : Nat) (l : List α) :
    ∀ buf : List α, (chunkedAux size buf l).flatten = buf ++ l := by
  induction l with
  | nil =>
    intro buf
    rw [chunkedAux]
    split
    · next hbuf => simp [List.isEmpty_iff.mp hbuf]
    · simp
  | cons x rest ih =>
    intro buf
    rw [chunkedAux]
    by_cases he : (buf ++ [x]).length = size
    · rw [if_pos he]
      simp [ih []]
    · rw [if_neg he]
      simp [ih (buf ++ [x])]

theorem chunked_length_le {α : Type} (l : List α) (b : List α)
    (hb : b ∈ chunked l 25) : b.length ≤ 25 :=
  chunkedAux_length_le 25 (by omega) l [] (by simp) b hb

theorem chunked_flatten {α : Type} (l : List α) : (chunked l 25).flatten = l := by
  simpa using chunkedAux_flatten 25 l []

/-- The per-batch failed pairs the spec prescribes: the whole batch on a
transport error, exactly the pairs whose id the response names on success. -/
def claimBatchFailed (env : Nat → BatchResult) (i : Nat)
    (b : List (String × String)) : List (String × String) :=
  match env i with
  | .transportError => b
  | .response fl => b.filter (fun p => decide (p.2 ∈ truthyFailedIds fl))

/-- The per-batch succeeded ids the spec prescribes: none on a transport error,
every id of the batch not named by the response on success. -/
def claimBatchSucceeded (env : Nat → BatchResult) (i : Nat)
    (b : List (String × String)) : List String :=
  match env i with
  | .transportError => []
  | .response fl => (b.filter (fun p => decide (p.2 ∉ truthyFailedIds fl))).map Prod.snd

theorem runBatches_spec (env : Nat → BatchResult) :
    ∀ (chs : List (List (String × String))) (i : Nat),
    (runBatches env i chs).1 =
      ((List.enumFrom i chs).map (fun q => claimBatchSucceeded env q.1 q.2)).flatten
    ∧ (runBatches env i chs).2.1 =
      ((List.enumFrom i chs).map (fun q => claimBatchFailed env q.1 q.2)).flatten
    ∧ (runBatches env i chs).2.2.2 = chs.map (fun b => b.map Prod.snd) := by
  intro chs
  induction chs with
  | nil => intro i; simp [runBatches]
  | cons b rest ih =>
    intro i
    obtain ⟨ih1, ih2, ih3⟩ := ih (i + 1)
    have henum : List.enumFrom i (b :: rest) = (i, b) :: List.enumFrom (i + 1) rest := rfl
    cases henv : env i with
    | transportError =>
      have hcs : claimBatchSucceeded env i b = [] := by
        simp [claimBatchSucceeded, henv]
      have hcf : claimBatchFailed env i b = b := by
        simp [claimBatchFailed, henv]
      refine ⟨?_, ?_, ?_⟩
      · rw [henum, List.map_cons, List.flatten_cons, hcs]
        simp only [runBatches, henv, List.nil_append]
        exact ih1
      · rw [henum, List.map_cons, List.flatten_cons, hcf]
        simp only [runBatches, henv]
        rw [ih2]
      · simp only [runBatches, henv, List.map_cons]
        rw [ih3]
    | response fl =>
      have hcs : claimBatchSucceeded env i b
          = (b.filter (fun p => decide (p.2 ∉ truthyFailedIds fl))).map Prod.snd := by
        simp [claimBatchSucceeded, henv]
      have hcf : claimBatchFailed env i b
          = b.filter (fun p => decide (p.2 ∈ truthyFailedIds fl)) := by
        simp [claimBatchFailed, henv]
      refine ⟨?_, ?_, ?_⟩
      · rw [henum, List.map_cons, List.flatten_cons, hcs]
        simp only [runBatches, henv]
        rw [ih1]
      · rw [henum, List.map_cons, List.flatten_cons, hcf]
        simp only [runBatches, henv]
        rw [ih2]
      · simp only [runBatches, henv, List.map_cons]
        rw [ih3]

/-- C2: the batch actuator splits its pairs into batches of at most 25 (their
concatenation being exactly the input), issues exactly one mutation call per
batch carrying that batch's ids, marks every pair of a batch failed on a
whole-batch transport error, and on a successful call marks failed exactly the
pairs whose id appears (truthily) in the returned per-item failure list,
counting every other id of the batch as a success. -/
theorem C2_batch_actuation (startEnv stopEnv : Nat → BatchResult)
    (pairs : List (String × String)) (action : String) :
    (∀ b ∈ chunked pairs 25, b.length ≤ 25)
    ∧ (chunked pairs 25).flatten = pairs
    ∧ (start_or_stop startEnv stopEnv pairs action).2.2.2 =
        (chunked pairs 25).map (fun b => b.map Prod.snd)
    ∧ (start_or_stop startEnv stopEnv pairs action).1 =
        ((List.enumFrom 0 (chunked pairs 25)).map (fun q =>
          claimBatchSucceeded (if action = "start" then startEnv else stopEnv) q.1 q.2)).flatten
    ∧ (start_or_stop startEnv stopEnv pairs action).2.1 =
        ((List.enumFrom 0 (chunked pairs 25)).map (fun q =>
          claimBatchFailed (if action = "start" then startEnv else stopEnv) q.1 q.2)).flatten := by
  refine ⟨fun b hb => chunked_length_le pairs b hb, chunked_flatten pairs, ?_, ?_, ?_⟩
  all_goals
    rw [start_or_stop]
    split
  · next hp => subst hp; rfl
  · exact (runBatches_spec _ (chunked pairs 25) 0).2.2
  · next hp => subst hp; rfl
  · exact (runBatches_spec _ (chunked pairs 25) 0).1
  · next hp => subst hp; rfl
  · exact (runBatches_spec _ (chunked pairs 25) 0).2.1

/-- C2 witness: a whole-batch transport error marks both pairs of the batch
failed, via the claim theorem evaluated at a concrete input. -/
theorem C2_witness :
    (start_or_stop (fun _ => BatchResult.transportError)
      (fun _ => BatchResult.transportError) [("a", "A"), ("b", "B")] "start").2.1
      = [("a", "A"), ("b", "B")] := by
  have h := (C2_batch_actuation (fun _ => BatchResult.transportError)
    (fun _ => BatchResult.transportError) [("a", "A"), ("b", "B")] "start").2.2.2.2
  rw [h]
  decide

/-! ### C5: the state filter -/

theorem gwsLoop_all_none (env : Nat → Option (List Workspace))
    (h : ∀ i, env i = none) :
    ∀ (chs : List (List String)) (i : Nat) (sts : List (String × String)),
      gwsLoop env i chs sts = sts := by
  intro chs
  induction chs with
  | nil => intro i sts; rfl
  | cons b rest ih =>
    intro i sts
    simp only [gwsLoop, h i]
    exact ih (i + 1) sts

/-- C5: the state filter fetches states in 25-size batches covering exactly the
resolved ids, a pair is `allowed` exactly when its fetched state equals the
action's precondition (STOPPED for `start`, AVAILABLE otherwise), a pair is
`skipped` (with its actual or UNKNOWN state) exactly when it is not allowed —
so every resolved pair lands in exactly one of the two sets — and when every
batch fetch fails no state at all is recorded. -/
theorem C5_state_filter (env : Nat → Option (List Workspace))
    (resolved : List (String × String)) (action : String) :
    (∀ b ∈ chunked (resolved.map Prod.snd) 25, b.length ≤ 25)
    ∧ (chunked (resolved.map Prod.snd) 25).flatten = resolved.map Prod.snd
    ∧ (∀ p ∈ resolved,
        (p ∈ (filter_by_valid_state env resolved action).1 ↔
          dictGet (get_workspace_states env (resolved.map Prod.snd)) p.2
            = some (if action = "start" then "STOPPED" else "AVAILABLE")))
    ∧ (∀ p ∈ resolved,
        ((p.1, p.2,
            (dictGet (get_workspace_states env (resolved.map Prod.snd)) p.2).getD "UNKNOWN")
          ∈ (filter_by_valid_state env resolved action).2 ↔
          p ∉ (filter_by_valid_state env resolved action).1))
    ∧ (∀ p ∈ resolved,
        (p ∈ (filter_by_valid_state env resolved action).1 ∧
          (p.1, p.2,
            (dictGet (get_workspace_states env (resolved.map Prod.snd)) p.2).getD "UNKNOWN")
            ∉ (filter_by_valid_state env resolved action).2) ∨
        (p ∉ (filter_by_valid_state env resolved action).1 ∧
          (p.1, p.2,
            (dictGet (get_workspace_states env (resolved.map Prod.snd)) p.2).getD "UNKNOWN")
            ∈ (filter_by_valid_state env resolved action).2))
    ∧ ((∀ i, env i = none) → get_workspace_states env (resolved.map Prod.snd) = []) := by
  have hall : (filter_by_valid_state env resolved action).1
      = resolved.filter (fun p =>
          decide (dictGet (get_workspace_states env (resolved.map Prod.snd)) p.2
            = some (if action = "start" then "STOPPED" else "AVAILABLE"))) := rfl
  have hskip : (filter_by_valid_state env resolved action).2
      = (resolved.filter
            (fun p => decide (p ∉ (filter_by_valid_state env resolved action).1))).map
          (fun p => (p.1, p.2,
            (dictGet (get_workspace_states env (resolved.map Prod.snd)) p.2).getD "UNKNOWN")) := rfl
  have hc : ∀ p ∈ resolved,
      (p ∈ (filter_by_valid_state env resolved action).1 ↔
        dictGet (get_workspace_states env (resolved.map Prod.snd)) p.2
          = some (if action = "start" then "STOPPED" else "AVAILABLE")) := by
    intro p hp
    rw [hall, List.mem_filter]
    simp [hp]
  have hd : ∀ p ∈ resolved,
      ((p.1, p.2,
          (dictGet (get_workspace_states env (resolved.map Prod.snd)) p.2).getD "UNKNOWN")
        ∈ (filter_by_valid_state env resolved action).2 ↔
        p ∉ (filter_by_valid_state env resolved action).1) := by
    intro p hp
    rw [hskip, List.mem_map]
    constructor
    · rintro ⟨q, hq, he⟩
      rw [List.mem_filter] at hq
      have hqp : q = p := by
        obtain ⟨qa, qb⟩ := q
        obtain ⟨pa, pb⟩ := p
        simp only [Prod.mk.injEq] at he
        simp [he.1, he.2.1]
      rw [← hqp]
      simpa using hq.2
    · intro hnp
      exact ⟨p, List.mem_filter.mpr ⟨hp, by simpa using hnp⟩, rfl⟩
  refine ⟨fun b hb => chunked_length_le _ b hb, chunked_flatten _, hc, hd, ?_, ?_⟩
  · intro p hp
    by_cases hin : p ∈ (filter_by_valid_state env resolved action).1
    · exact Or.inl ⟨hin, fun hs => ((hd p hp).mp hs) hin⟩
    · exact Or.inr ⟨hin, (hd p hp).mpr hin⟩
  · intro hnone
    exact gwsLoop_all_none env hnone _ 0 []

/-- C5 witness: with states STOPPED / AVAILABLE / ERROR and action `start`,
the STOPPED pair is allowed, via the claim theorem at a concrete input. -/
theorem C5_witness :
    ("a", "w1") ∈ (filter_by_valid_state
      (fun _ => some [⟨some "w1", none, none, some "STOPPED"⟩,
        ⟨some "w2", none, none, some "AVAILABLE"⟩,
        ⟨some "w3", none, none, some "ERROR"⟩])
      [("a", "w1"), ("b", "w2"), ("c", "w3")] "start").1 :=
  ((C5_state_filter
      (fun _ => some [⟨some "w1", none, none, some "STOPPED"⟩,
        ⟨some "w2", none, none, some "AVAILABLE"⟩,
        ⟨some "w3", none, none, some "ERROR"⟩])
      [("a", "w1"), ("b", "w2"), ("c", "w3")] "start").2.2.1
    ("a", "w1") (by decide)).mpr (by decide)

/-! ### C10: resolution does not de-duplicate by canonical id -/

/-- C10: a record's canonical ID and its user name, given as two distinct
targets, each resolve to the same canonical ID; both pairs pass the state
filter and the single mutation call then carries that ID twice in one batch. -/
theorem C10_duplicate_id_in_batch :
    resolve_targets [⟨some "ws-1", none, some "alice", some "STOPPED"⟩]
      (fun _ _ => TagCallResult.botoCoreError) ["ws-1", "alice"] false 500
      = ([("ws-1", "ws-1"), ("alice", "ws-1")], [])
    ∧ (filter_by_valid_state
        (fun _ => some [⟨some "ws-1", none, some "alice", some "STOPPED"⟩])
        [("ws-1", "ws-1"), ("alice", "ws-1")] "start")
      = ([("ws-1", "ws-1"), ("alice", "ws-1")], [])
    ∧ (start_or_stop (fun _ => BatchResult.response []) (fun _ => BatchResult.response [])
        [("ws-1", "ws-1"), ("alice", "ws-1")] "start").2.2.2
      = [["ws-1", "ws-1"]] :=
  ⟨by decide, by decide, by decide⟩

/-! ### C1 / C9: exit codes of `main` -/

theorem mainTargets_error_eq (e : MainEnv) (c : Nat)
    (h : mainTargets e = .error c) : c = 3 := by
  cases hf : e.file <;> simp [mainTargets, hf] at h <;> omega

theorem mainResolve_error_eq (e : MainEnv) (targets : List String) (c : Nat)
    (h : mainResolve e targets = .error c) : c = 4 := by
  by_cases ht : targets = []
  · simp [mainResolve, ht] at h
  · rw [mainResolve, if_neg ht] at h
    cases hinv : e.inventory with
    | error u => simp [hinv] at h; omega
    | ok l => simp [hinv] at h

/-- The dry-run environment of the C9 counterexample: a `resolve` action with
the dry-run flag set, one target resolving and one not. -/
def envResolveDry : MainEnv :=
  ⟨some "w1,ghost", .noFile, "resolve", true, false, 500, true,
    .ok [⟨some "w1", none, none, none⟩], fun _ _ => .botoCoreError,
    fun _ => none, fun _ => .response [], fun _ => .response []⟩

/-- C9 counterexample: with the dry-run flag set, at least one target resolved
and one unresolved, the process exits 2, not 0 — the claim fails for the
`resolve` action, whose exit precedes the dry-run check. -/
theorem C9_counterexample :
    envResolveDry.dryRun = true
    ∧ mainTargets envResolveDry = Except.ok ["w1", "ghost"]
    ∧ mainResolve envResolveDry ["w1", "ghost"]
        = Except.ok ([("w1", "w1")], ["ghost"])
    ∧ mainExitCode envResolveDry = 2 :=
  ⟨rfl, rfl, rfl, by decide⟩

/-- C9 (amended): for an actionable verb (start, stop, users, status), a
dry-run never exits 2, and exits 0 whenever at least one target resolved. -/
theorem C9_dry_run_amended (e : MainEnv)
    (hAct : e.action = "start" ∨ e.action = "stop" ∨ e.action = "users"
      ∨ e.action = "status")
    (hdry : e.dryRun = true) :
    mainExitCode e ≠ 2
    ∧ (∀ targets ru, mainTargets e = Except.ok targets → e.clientOk = true →
        mainResolve e targets = Except.ok ru → ru.1 ≠ [] → mainExitCode e = 0) := by
  have hne : e.action ≠ "resolve" := by
    rcases hAct with h | h | h | h <;> rw [h] <;> decide
  constructor
  · intro h2
    cases hmt : mainTargets e with
    | error c =>
      simp only [mainExitCode, hmt] at h2
      have := mainTargets_error_eq e c hmt
      omega
    | ok targets =>
      simp only [mainExitCode, hmt] at h2
      by_cases hemp : targets = [] ∧ e.action ≠ "resolve"
      · rw [if_pos hemp] at h2; exact absurd h2 (by decide)
      · rw [if_neg hemp] at h2
        by_cases hck : e.clientOk = false
        · rw [if_pos hck] at h2; exact absurd h2 (by decide)
        · rw [if_neg hck] at h2
          cases hmr : mainResolve e targets with
          | error c =>
            simp only [hmr] at h2
            have := mainResolve_error_eq e targets c hmr
            omega
          | ok ru =>
            simp only [hmr] at h2
            rw [mainAction, if_neg hne] at h2
            by_cases h1 : ru.1 = []
            · rw [if_pos h1] at h2; exact absurd h2 (by decide)
            · rw [if_neg h1, if_pos hdry] at h2
              exact absurd h2 (by decide)
  · intro targets ru hmt hck hmr hru1
    have htne : targets ≠ [] := by
      intro hte
      rw [hte] at hmr
      rw [mainResolve, if_pos rfl] at hmr
      obtain rfl := Except.ok.inj hmr
      exact hru1 rfl
    simp only [mainExitCode, hmt]
    rw [if_neg (fun hc => htne hc.1), if_neg (by simp [hck])]
    simp only [hmr]
    rw [mainAction, if_neg hne, if_neg hru1, if_pos hdry]

/-- C9 witness: a dry-run `users` invocation with one resolved and one
unresolved target exits 0, via the amended claim theorem. -/
theorem C9_witness :
    mainExitCode
      ⟨some "w1,ghost", .noFile, "users", true, false, 500, true,
        .ok [⟨some "w1", none, none, none⟩], fun _ _ => .botoCoreError,
        fun _ => none, fun _ => .response [], fun _ => .response []⟩ = 0 :=
  (C9_dry_run_amended
    ⟨some "w1,ghost", .noFile, "users", true, false, 500, true,
      .ok [⟨some "w1", none, none, none⟩], fun _ _ => .botoCoreError,
      fun _ => none, fun _ => .response [], fun _ => .response []⟩
    (by decide) rfl).2 ["w1", "ghost"] ([("w1", "w1")], ["ghost"])
    rfl rfl rfl (by decide)

/-- C1: for an actionable verb (start, stop, users, status): exit code 2 occurs
only when something resolved but some targets stayed unresolved or some
mutations failed; full success (everything resolved, and for start/stop a
non-empty allowed set with no mutation failure) exits 0; invalid input (missing
or unreadable file, no targets, nothing resolved, or nothing in the right
state with nothing unresolved) exits 3; a client-construction or inventory
fetch error exits 4. -/
theorem C1_exit_codes (e : MainEnv)
    (hAct : e.action = "start" ∨ e.action = "stop" ∨ e.action = "users"
      ∨ e.action = "status") :
    (mainExitCode e = 2 →
      ∃ targets ru, mainTargets e = Except.ok targets
        ∧ mainResolve e targets = Except.ok ru
        ∧ ru.1 ≠ []
        ∧ (ru.2 ≠ [] ∨
            (start_or_stop e.startEnv e.stopEnv
              (filter_by_valid_state e.descEnv ru.1 e.action).1 e.action).2.1 ≠ []))
    ∧ (∀ targets ru, mainTargets e = Except.ok targets → targets ≠ [] →
        e.clientOk = true → mainResolve e targets = Except.ok ru →
        ru.1 ≠ [] → ru.2 = [] → e.dryRun = false →
        ((e.action = "start" ∨ e.action = "stop") →
          (filter_by_valid_state e.descEnv ru.1 e.action).1 ≠ [] ∧
          (start_or_stop e.startEnv e.stopEnv
            (filter_by_valid_state e.descEnv ru.1 e.action).1 e.action).2.1 = []) →
        mainExitCode e = 0)
    ∧ ((e.file = FileArg.missing ∨ e.file = FileArg.ioError) → mainExitCode e = 3)
    ∧ (∀ targets, mainTargets e = Except.ok targets → targets = [] →
        mainExitCode e = 3)
    ∧ (∀ targets ru, mainTargets e = Except.ok targets → e.clientOk = true →
        mainResolve e targets = Except.ok ru → ru.1 = [] → mainExitCode e = 3)
    ∧ (∀ targets ru, mainTargets e = Except.ok targets → e.clientOk = true →
        mainResolve e targets = Except.ok ru → ru.1 ≠ [] → ru.2 = [] →
        e.dryRun = false → (e.action = "start" ∨ e.action = "stop") →
        (filter_by_valid_state e.descEnv ru.1 e.action).1 = [] →
        mainExitCode e = 3)
    ∧ (∀ targets, mainTargets e = Except.ok targets → targets ≠ [] →
        e.clientOk = false → mainExitCode e = 4)
    ∧ (∀ targets, mainTargets e = Except.ok targets → targets ≠ [] →
        e.clientOk = true → e.inventory = Except.error () → mainExitCode e = 4) := by
  have hne : e.action ≠ "resolve" := by
    rcases hAct with h | h | h | h <;> rw [h] <;> decide
  refine ⟨?_, ?_, ?_, ?_, ?_, ?_, ?_, ?_⟩
  · -- exit 2 only with partial progress
    intro h2
    cases hmt : mainTargets e with
    | error c =>
      simp only [mainExitCode, hmt] at h2
      have := mainTargets_error_eq e c hmt
      omega
    | ok targets =>
      simp only [mainExitCode, hmt] at h2
      by_cases hemp : targets = [] ∧ e.action ≠ "resolve"
      · rw [if_pos hemp] at h2; exact absurd h2 (by decide)
      · rw [if_neg hemp] at h2
        by_cases hck : e.clientOk = false
        · rw [if_pos hck] at h2; exact absurd h2 (by decide)
        · rw [if_neg hck] at h2
          cases hmr : mainResolve e targets with
          | error c =>
            simp only [hmr] at h2
            have := mainResolve_error_eq e targets c hmr
            omega
          | ok ru =>
            simp only [hmr] at h2
            refine ⟨targets, ru, rfl, hmr, ?_⟩
            rw [mainAction, if_neg hne] at h2
            by_cases h1 : ru.1 = []
            · rw [if_pos h1] at h2; exact absurd h2 (by decide)
            · rw [if_neg h1] at h2
              refine ⟨h1, ?_⟩
              by_cases hdry : e.dryRun = true
              · rw [if_pos hdry] at h2; exact absurd h2 (by decide)
              · rw [if_neg hdry] at h2
                by_cases hss : e.action = "start" ∨ e.action = "stop"
                · rw [if_pos hss] at h2
                  rw [mainStartStop] at h2
                  by_cases hfr : (filter_by_valid_state e.descEnv ru.1 e.action).1 = []
                  · rw [if_pos hfr] at h2
                    by_cases hun : ru.2 ≠ []
                    · exact Or.inl hun
                    · rw [if_neg hun] at h2; exact absurd h2 (by decide)
                  · rw [if_neg hfr] at h2
                    by_cases hcond : (start_or_stop e.startEnv e.stopEnv
                        (filter_by_valid_state e.descEnv ru.1 e.action).1 e.action).2.1
                          ≠ [] ∨ ru.2 ≠ []
                    · rcases hcond with hf | hu
                      · exact Or.inr hf
                      · exact Or.inl hu
                    · rw [if_neg hcond] at h2; exact absurd h2 (by decide)
                · rw [if_neg hss] at h2
                  by_cases hu : e.action = "users"
                  · rw [if_pos hu] at h2
                    by_cases hun : ru.2 ≠ []
                    · exact Or.inl hun
                    · rw [if_neg hun] at h2; exact absurd h2 (by decide)
                  · rw [if_neg hu] at h2
                    by_cases hst : e.action = "status"
                    · rw [if_pos hst] at h2
                      by_cases hun : ru.2 ≠ []
                      · exact Or.inl hun
                      · rw [if_neg hun] at h2; exact absurd h2 (by decide)
                    · rcases hAct with ha | ha | ha | ha
                      · exact absurd (Or.inl ha) hss
                      · exact absurd (Or.inr ha) hss
                      · exact absurd ha hu
                      · exact absurd ha hst
  · -- full success exits 0
    intro targets ru hmt htne hck hmr hru1 hru2 hdry hss
    simp only [mainExitCode, hmt]
    rw [if_neg (fun hc => htne hc.1), if_neg (by simp [hck])]
    simp only [hmr]
    rw [mainAction, if_neg hne, if_neg hru1, if_neg (by simp [hdry])]
    by_cases hsa : e.action = "start" ∨ e.action = "stop"
    · rw [if_pos hsa]
      obtain ⟨hfr, hfl⟩ := hss hsa
      rw [mainStartStop, if_neg hfr, if_neg (by simp [hfl, hru2])]
    · rw [if_neg hsa]
      by_cases hu : e.action = "users"
      · rw [if_pos hu, if_neg (by simp [hru2])]
      · rw [if_neg hu]
        by_cases hst : e.action = "status"
        · rw [if_pos hst, if_neg (by simp [hru2])]
        · rcases hAct with ha | ha | ha | ha
          · exact absurd (Or.inl ha) hsa
          · exact absurd (Or.inr ha) hsa
          · exact absurd ha hu
          · exact absurd ha hst
  · -- missing or unreadable file exits 3
    rintro (hf | hf) <;> simp [mainExitCode, mainTargets, hf]
  · -- no targets exits 3
    intro targets hmt hte
    subst hte
    simp only [mainExitCode, hmt]
    simp [hne]
  · -- nothing resolved exits 3
    intro targets ru hmt hck hmr h1
    simp only [mainExitCode, hmt]
    by_cases hemp : targets = [] ∧ e.action ≠ "resolve"
    · rw [if_pos hemp]
    · rw [if_neg hemp, if_neg (by simp [hck])]
      simp only [hmr]
      rw [mainAction, if_neg hne, if_pos h1]
  · -- nothing in the right state and nothing unresolved exits 3
    intro targets ru hmt hck hmr hru1 hru2 hdry hsa hfr
    simp only [mainExitCode, hmt]
    have htne : targets ≠ [] := by
      intro hte
      rw [hte, mainResolve, if_pos rfl] at hmr
      obtain rfl := Except.ok.inj hmr
      exact hru1 rfl
    rw [if_neg (fun hc => htne hc.1), if_neg (by simp [hck])]
    simp only [hmr]
    rw [mainAction, if_neg hne, if_neg hru1, if_neg (by simp [hdry]), if_pos hsa]
    rw [mainStartStop, if_pos hfr, if_neg (by simp [hru2])]
  · -- client construction failure exits 4
    intro targets hmt htne hck
    simp only [mainExitCode, hmt]
    rw [if_neg (fun hc => htne hc.1), if_pos hck]
  · -- inventory fetch failure exits 4
    intro targets hmt htne hck hinv
    simp only [mainExitCode, hmt]
    rw [if_neg (fun hc => htne hc.1), if_neg (by simp [hck])]
    have hmr : mainResolve e targets = .error 4 := by
      rw [mainResolve, if_neg htne, hinv]
    simp only [hmr]

/-- C1 witness: a fully successful `users` run exits 0, via the claim theorem
at a concrete environment. -/
theorem C1_witness :
    mainExitCode
      ⟨some "w1", .noFile, "users", false, false, 500, true,
        .ok [⟨some "w1", none, none, none⟩], fun _ _ => .botoCoreError,
        fun _ => none, fun _ => .response [], fun _ => .response []⟩ = 0 :=
  (C1_exit_codes
    ⟨some "w1", .noFile, "users", false, false, 500, true,
      .ok [⟨some "w1", none, none, none⟩], fun _ _ => .botoCoreError,
      fun _ => none, fun _ => .response [], fun _ => .response []⟩
    (by decide)).2.1 ["w1"] ([("w1", "w1")], []) rfl (by decide) rfl rfl
    (by decide) rfl rfl
    (fun hc => absurd hc (by decide))
